import Mathlib

/-!
Verification model of the rusty-navigator core (src/main.rs): 2D vector math,
the scrolling tunnel queue, the circle-vs-polyline collision test, and the
per-frame simulation state machine.  64-bit floats are modelled by exact
rationals; the seeded random generator is modelled abstractly as a stream of
unit draws, matching how the source threads its generator state.
-/

namespace RustyNavigator

/-- 2D vector with rational components; exact-arithmetic model of the source's
vector struct over 64-bit floats (src/main.rs lines 33-43). -/
structure V2 where
  x : ℚ
  y : ℚ
deriving DecidableEq

instance : Add V2 where
  add a b := ⟨a.x + b.x, a.y + b.y⟩

instance : Sub V2 where
  sub a b := ⟨a.x - b.x, a.y - b.y⟩

/-- Source `V2::<f64>::normalized`: divides both components by the squared
magnitude `x*x + y*y`, not by the magnitude (src/main.rs lines 46-53). -/
def V2.normalized (v : V2) : V2 :=
  let norm := v.x * v.x + v.y * v.y
  ⟨v.x / norm, v.y / norm⟩

/-- Source `V2::turn_left`: 90 degree counter-clockwise rotation. -/
def V2.turn_left (v : V2) : V2 := ⟨-v.y, v.x⟩

/-- Source `V2::dot`. -/
def V2.dot (a b : V2) : ℚ := a.x * b.x + a.y * b.y

/-- Abstract model of the seeded `StdRng`: a stream of draws in `[0, 1)`
together with a cursor.  `gen_range lo hi` consumes the next unit draw `u`
and returns `lo + (hi - lo) * u`, which lies in `[lo, hi)` whenever the
stream is a genuine unit stream and `lo < hi`. -/
structure Rng where
  stream : ℕ → ℚ
  idx : ℕ

/-- One call to `rng.gen_range(lo, hi)`: the drawn value and the advanced
generator. -/
def Rng.genRange (rng : Rng) (lo hi : ℚ) : ℚ × Rng :=
  (lo + (hi - lo) * rng.stream rng.idx, ⟨rng.stream, rng.idx + 1⟩)

/-- A generator whose stream only produces unit draws in `[0, 1)`. -/
def GoodRng (rng : Rng) : Prop :=
  ∀ n, 0 ≤ rng.stream n ∧ rng.stream n < 1

/-- One tunnel keyframe, exactly the source's `(V2<f64>, f64)` tuple:
the center point and the half-width of the opening. -/
abbrev Segment := V2 × ℚ

/-- The mutable game state (source struct `AppState`), with the `VecDeque`
tunnel modelled as a list, front = oldest. -/
structure AppState where
  rng : Rng
  paused : Bool
  collided : Bool
  heli_pos : V2
  heli_vel : V2
  tube : List Segment

/-- Phase (a) of `move_tube`: every segment's x decreases by the scroll
speed 0.001 (src/main.rs lines 267-269). -/
def shiftTube (tube : List Segment) : List Segment :=
  tube.map fun sg => (⟨sg.1.x - 1/1000, sg.1.y⟩, sg.2)

/-- Phase (b) of `move_tube`: while the second-oldest segment's x is
negative, pop the oldest (src/main.rs lines 271-273). -/
def evictTube : List Segment → List Segment
  | a :: b :: rest => if b.1.x < 0 then evictTube (b :: rest) else a :: b :: rest
  | t => t

/-- Termination measure for the extend loop: how many appends (spaced 1/5
apart) are still needed before the newest x reaches 1. -/
def extendMeasure (tube : List Segment) : ℕ :=
  match tube.getLast? with
  | none => 6
  | some sg => (⌈(1 - sg.1.x) * 5⌉).toNat

/-- Phase (c) of `move_tube`: while the newest segment's x has not reached
1.0, append a segment at `newest.x + 1/5` (or at 0 for an empty queue, the
source's `map_or` default), drawing the vertical midpoint from `[0.2, 0.8)`
and then the half-width from `[0.1, 0.2)` (src/main.rs lines 275-281). -/
def extendTube (rng : Rng) (tube : List Segment) : Rng × List Segment :=
  match h : tube.getLast? with
  | some sg =>
    if h1 : 1 ≤ sg.1.x then (rng, tube)
    else
      let m := rng.genRange (1/5) (4/5)
      let w := m.2.genRange (1/10) (1/5)
      extendTube w.2 (tube ++ [(⟨sg.1.x + 1/5, m.1⟩, w.1)])
  | none =>
      let m := rng.genRange (1/5) (4/5)
      let w := m.2.genRange (1/10) (1/5)
      extendTube w.2 (tube ++ [(⟨0, m.1⟩, w.1)])
termination_by extendMeasure tube
decreasing_by
  · simp only [extendMeasure, List.getLast?_concat, h]
    have e1 : (1 - (sg.1.x + 1/5)) * 5 = (1 - sg.1.x) * 5 - ((1 : ℤ) : ℚ) := by
      push_cast
      ring
    rw [e1, Int.ceil_sub_int]
    have hpos : 0 < ⌈(1 - sg.1.x) * 5⌉ := Int.ceil_pos.mpr (by nlinarith)
    omega
  · have ht : tube = [] := List.getLast?_eq_none_iff.mp h
    subst ht
    simp only [extendMeasure, List.nil_append, List.getLast?_concat]
    norm_num

/-- The source's `move_tube` (src/main.rs lines 263-282): shift all x by the
scroll speed, evict dead heads, then extend to re-cover the window, threading
the generator through the extension. -/
def move_tube (s : AppState) : AppState :=
  let t1 := shiftTube s.tube
  let t2 := evictTube t1
  let r := extendTube s.rng t2
  { s with rng := r.1, tube := r.2 }

/-- The ground polyline: each tunnel center lowered by its half-width
(src/main.rs lines 117-119). -/
def ground (s : AppState) : List V2 :=
  s.tube.map fun sg => sg.1 + V2.mk 0 (-sg.2)

/-- The ceiling polyline: each tunnel center raised by its half-width
(src/main.rs lines 121-123). -/
def ceiling (s : AppState) : List V2 :=
  s.tube.map fun sg => sg.1 + V2.mk 0 sg.2

/-- Source `segment_point_distance`: signed perpendicular distance scaled by
the squared segment length, via the left-turn normal and the source's
squared-norm `normalized` (src/main.rs lines 284-289). -/
def segment_point_distance (seg : V2 × V2) (point : V2) : ℚ :=
  V2.dot (V2.normalized (V2.turn_left (seg.2 - seg.1))) (point - seg.1)

/-- The vehicle's collision radius, the source constant `HELI_RADIUS = 0.03`. -/
def HELI_RADIUS : ℚ := 3/100

/-- Source local helper `between`: strictly between, in the given order. -/
def between (se : ℚ × ℚ) (x : ℚ) : Bool :=
  decide (se.1 < x) && decide (x < se.2)

/-- Source local helper `max` on floats: `if x > y then x else y`. -/
def fmax (x y : ℚ) : ℚ := if y < x then x else y

/-- Source local helper `min` on floats: `if x < y then x else y`. -/
def fmin (x y : ℚ) : ℚ := if x < y then x else y

/-- Source `is_collided` (src/main.rs lines 291-331): test the vehicle circle
against every consecutive ground pair (with the ground orientation) and every
consecutive ceiling pair (with start and end swapped in the distance call). -/
def is_collided (s : AppState) : Bool :=
  let pos := s.heli_pos
  let hit_ground := ((ground s).zip ((ground s).drop 1)).any fun se =>
    between (se.1.x, se.2.x) pos.x
      && decide (pos.y - HELI_RADIUS < fmax se.1.y se.2.y)
      && decide (segment_point_distance (se.1, se.2) pos < HELI_RADIUS)
  let hit_ceiling := ((ceiling s).zip ((ceiling s).drop 1)).any fun se =>
    between (se.1.x, se.2.x) pos.x
      && decide (pos.y + HELI_RADIUS > fmin se.1.y se.2.y)
      && decide (segment_point_distance (se.2, se.1) pos < HELI_RADIUS)
  hit_ground || hit_ceiling

/-- The state built by `init_app_state` before its trailing `move_tube` call:
two seed segments at x = 0 and x = 0.4, both centered at 0.5 with half-width
0.4; vehicle at (0.1, 0.5) at rest; paused, not collided
(src/main.rs lines 98-111). -/
def seedState (rng : Rng) : AppState :=
  { rng := rng
    paused := true
    collided := false
    heli_pos := ⟨1/10, 1/2⟩
    heli_vel := ⟨0, 0⟩
    tube := [(⟨0, 1/2⟩, 2/5), (⟨2/5, 1/2⟩, 2/5)] }

/-- Source `init_app_state`: the seed state followed by one `move_tube`
(src/main.rs lines 98-114). -/
def init_app_state (rng : Rng) : AppState :=
  move_tube (seedState rng)

/-- The P-key handler: unconditionally flip the paused flag
(src/main.rs lines 219-223). -/
def toggle_pause (s : AppState) : AppState :=
  { s with paused := !s.paused }

/-- The R-key handler: rebuild the whole state from the carried-forward
generator (src/main.rs lines 225-229). -/
def handle_restart (s : AppState) : AppState :=
  init_app_state s.rng

/-- One pass of the per-frame update (src/main.rs lines 239-255), taking the
thrust key state: thrust unpauses; then, when neither collided nor paused,
the position moves by the current velocity, the vertical velocity gains or
loses 0.0001, the tunnel ticks, and the collision flag is recomputed. -/
def frame_tick (input_up : Bool) (s0 : AppState) : AppState :=
  let s := if input_up then { s0 with paused := false } else s0
  if !s.collided && !s.paused then
    let s1 := { s with heli_pos := s.heli_pos + s.heli_vel }
    let s2 := { s1 with heli_vel :=
      if input_up then ⟨s1.heli_vel.x, s1.heli_vel.y + 1/10000⟩
      else ⟨s1.heli_vel.x, s1.heli_vel.y - 1/10000⟩ }
    let s3 := move_tube s2
    { s3 with collided := is_collided s3 }
  else s

/-- States reachable from initialization by frame ticks, pause toggles and
restarts (the event loop's state transitions). -/
inductive Reachable : AppState → Prop where
  | init (rng : Rng) : Reachable (init_app_state rng)
  | tick (i : Bool) {s : AppState} : Reachable s → Reachable (frame_tick i s)
  | pauseKey {s : AppState} : Reachable s → Reachable (toggle_pause s)
  | restartKey {s : AppState} : Reachable s → Reachable (handle_restart s)

/-- Modelled from the spec: step (a) of one tunnel tick, "decrease every
segment's x by the scroll speed 0.001". -/
def specShiftTube (tube : List Segment) : List Segment :=
  tube.map fun sg => (⟨sg.1.x - 1/1000, sg.1.y⟩, sg.2)

/-- Modelled from the spec: step (b) of one tunnel tick, "while the
second-oldest segment's x is < 0, pop the oldest". -/
def specEvictTube : List Segment → List Segment
  | a :: b :: rest => if b.1.x < 0 then specEvictTube (b :: rest) else a :: b :: rest
  | t => t

/-- Modelled from the spec: step (c) of one tunnel tick, "while the newest
segment's x is < 1.0, append a new segment at x = newest.x + 0.2 whose
vertical midpoint is drawn uniformly before its half-width"; stated only for
queues that have a newest segment. -/
def specExtendTube (rng : Rng) (tube : List Segment) : Rng × List Segment :=
  match h : tube.getLast? with
  | some sg =>
    if h1 : sg.1.x < 1 then
      let m := rng.genRange (1/5) (4/5)
      let w := m.2.genRange (1/10) (1/5)
      specExtendTube w.2 (tube ++ [(⟨sg.1.x + 1/5, m.1⟩, w.1)])
    else (rng, tube)
  | none => (rng, tube)
termination_by extendMeasure tube
decreasing_by
  simp only [extendMeasure, List.getLast?_concat, h]
  have e1 : (1 - (sg.1.x + 1/5)) * 5 = (1 - sg.1.x) * 5 - ((1 : ℤ) : ℚ) := by
    push_cast
    ring
  rw [e1, Int.ceil_sub_int]
  have hpos : 0 < ⌈(1 - sg.1.x) * 5⌉ := Int.ceil_pos.mpr (by nlinarith)
  omega

/-- Modelled from the spec: one tunnel tick as the claim phrases it, the
three steps (a), (b), (c) in order. -/
def specTick (s : AppState) : AppState :=
  let t1 := specShiftTube s.tube
  let t2 := specEvictTube t1
  let r := specExtendTube s.rng t2
  { s with rng := r.1, tube := r.2 }

/-- Modelled from the spec: the physics tick as the claim phrases it — the
vertical velocity updates first and the position then moves by the already
updated velocity, followed by the tunnel tick and the collision test. -/
def claimTick (input_up : Bool) (s : AppState) : AppState :=
  let s2 := { s with heli_vel :=
    if input_up then ⟨s.heli_vel.x, s.heli_vel.y + 1/10000⟩
    else ⟨s.heli_vel.x, s.heli_vel.y - 1/10000⟩ }
  let s3 := { s2 with heli_pos := s2.heli_pos + s2.heli_vel }
  let s4 := move_tube s3
  { s4 with collided := is_collided s4 }

/-- The physics tick in the order the source performs it: the position moves
by the current velocity first, then the vertical velocity updates, then the
tunnel ticks and the collision flag is recomputed. -/
def amendTick (input_up : Bool) (s : AppState) : AppState :=
  let s1 := { s with heli_pos := s.heli_pos + s.heli_vel }
  let s2 := { s1 with heli_vel :=
    if input_up then ⟨s1.heli_vel.x, s1.heli_vel.y + 1/10000⟩
    else ⟨s1.heli_vel.x, s1.heli_vel.y - 1/10000⟩ }
  let s3 := move_tube s2
  { s3 with collided := is_collided s3 }

/-- The x-coordinate of the newest tunnel segment (0 for an empty queue). -/
def lastX (t : List Segment) : ℚ :=
  match t.getLast? with
  | some sg => sg.1.x
  | none => 0

/-- Modelled from the spec: "ticked until the back segment's x is >= 1.0" —
repeat whole tunnel ticks, up to the given bound, until the newest segment's
x reaches 1. -/
def untilSteady : ℕ → AppState → AppState
  | 0, s => s
  | n + 1, s => if 1 ≤ lastX s.tube then s else untilSteady n (move_tube s)

/-- Big-step relation: running the listed per-tick thrust inputs, one frame
tick per list entry, takes the first state to the second. -/
inductive Steps : AppState → List Bool → AppState → Prop where
  | nil (s : AppState) : Steps s [] s
  | cons (i : Bool) {s s' : AppState} {ins : List Bool} :
      Steps (frame_tick i s) ins s' → Steps s (i :: ins) s'

/-- The spec's state machine states. -/
inductive Mode where
  | Running
  | Paused
  | Collided
deriving DecidableEq

/-- The state machine state realized by the source's two flags: `collided`
dominates (no physics runs while it is set), otherwise `paused` picks
between Paused and Running. -/
def mode (s : AppState) : Mode :=
  if s.collided then Mode.Collided
  else if s.paused then Mode.Paused
  else Mode.Running

/-- A 64-bit float as the collision path sees it: either a finite rational
or a non-finite value.  The only division in the collision path divides by
the squared magnitude `x*x + y*y`, which (in exact arithmetic) vanishes
exactly on the zero vector where the numerators are also zero, so `0/0`,
i.e. NaN, is the only non-finite value this code can produce from finite
inputs. -/
inductive Fl where
  | fin (q : ℚ)
  | nan
deriving DecidableEq

/-- Float addition: non-finite operands propagate. -/
def Fl.add : Fl → Fl → Fl
  | Fl.fin a, Fl.fin b => Fl.fin (a + b)
  | _, _ => Fl.nan

/-- Float subtraction: non-finite operands propagate. -/
def Fl.sub : Fl → Fl → Fl
  | Fl.fin a, Fl.fin b => Fl.fin (a - b)
  | _, _ => Fl.nan

/-- Float multiplication: non-finite operands propagate. -/
def Fl.mul : Fl → Fl → Fl
  | Fl.fin a, Fl.fin b => Fl.fin (a * b)
  | _, _ => Fl.nan

/-- Float negation: non-finite operands propagate. -/
def Fl.neg : Fl → Fl
  | Fl.fin a => Fl.fin (-a)
  | _ => Fl.nan

/-- Float division: division by zero is non-finite, as is any non-finite
operand. -/
def Fl.div : Fl → Fl → Fl
  | Fl.fin a, Fl.fin b => if b = 0 then Fl.nan else Fl.fin (a / b)
  | _, _ => Fl.nan

/-- Float strict comparison: every comparison against a non-finite value is
false, as IEEE comparisons against NaN are. -/
def Fl.lt : Fl → Fl → Bool
  | Fl.fin a, Fl.fin b => decide (a < b)
  | _, _ => false

/-- A 2D vector of floats for the NaN-propagation model. -/
structure FV2 where
  x : Fl
  y : Fl
deriving DecidableEq

/-- Componentwise float subtraction. -/
def FV2.sub (a b : FV2) : FV2 := ⟨Fl.sub a.x b.x, Fl.sub a.y b.y⟩

/-- Source `turn_left` over floats. -/
def FV2.turn_left (v : FV2) : FV2 := ⟨Fl.neg v.y, v.x⟩

/-- Source `normalized` over floats: divide both components by the squared
magnitude. -/
def FV2.normalized (v : FV2) : FV2 :=
  let norm := Fl.add (Fl.mul v.x v.x) (Fl.mul v.y v.y)
  ⟨Fl.div v.x norm, Fl.div v.y norm⟩

/-- Source `dot` over floats. -/
def FV2.dot (a b : FV2) : Fl :=
  Fl.add (Fl.mul a.x b.x) (Fl.mul a.y b.y)

/-- Source `segment_point_distance` over floats. -/
def fl_segment_point_distance (seg : FV2 × FV2) (point : FV2) : Fl :=
  FV2.dot (FV2.normalized (FV2.turn_left (FV2.sub seg.2 seg.1))) (FV2.sub point seg.1)

/-- Source local `between` over floats. -/
def fl_between (se : Fl × Fl) (x : Fl) : Bool :=
  Fl.lt se.1 x && Fl.lt x se.2

/-- Source local `max` over floats: `if x > y then x else y`. -/
def Fl.fmax (x y : Fl) : Fl := if Fl.lt y x then x else y

/-- Source local `min` over floats: `if x < y then x else y`. -/
def Fl.fmin (x y : Fl) : Fl := if Fl.lt x y then x else y

/-- The per-pair ground hit condition of `is_collided`, over floats. -/
def fl_hit_ground_cond (start e pos : FV2) : Bool :=
  fl_between (start.x, e.x) pos.x
    && Fl.lt (Fl.sub pos.y (Fl.fin HELI_RADIUS)) (Fl.fmax start.y e.y)
    && Fl.lt (fl_segment_point_distance (start, e) pos) (Fl.fin HELI_RADIUS)

/-- The per-pair ceiling hit condition of `is_collided`, over floats (start
and end swapped in the distance call). -/
def fl_hit_ceiling_cond (start e pos : FV2) : Bool :=
  fl_between (start.x, e.x) pos.x
    && Fl.lt (Fl.fmin start.y e.y) (Fl.add pos.y (Fl.fin HELI_RADIUS))
    && Fl.lt (fl_segment_point_distance (e, start) pos) (Fl.fin HELI_RADIUS)

/-- Strict increase of segment x along the queue, oldest to newest. -/
def TubeSorted (t : List Segment) : Prop :=
  List.Chain' (fun a b : Segment => a.1.x < b.1.x) t

/-- One segment's walls stay inside the normalized vertical window: the
half-width is nonnegative, the ground point is at least 0 and the ceiling
point at most 1. -/
def SegInBounds (sg : Segment) : Prop :=
  0 ≤ sg.2 ∧ 0 ≤ sg.1.y - sg.2 ∧ sg.1.y + sg.2 ≤ 1

/-- A concrete generator for witnesses: the all-zeros unit stream. -/
def rng0 : Rng := ⟨fun _ => 0, 0⟩

/-- A concrete running state used to exhibit the physics-tick order: at rest
at (1/2, 1/2), with a tunnel whose newest segment is already far right so
that a tick changes no tunnel structure. -/
def cst : AppState :=
  { rng := rng0
    paused := false
    collided := false
    heli_pos := ⟨1/2, 1/2⟩
    heli_vel := ⟨0, 0⟩
    tube := [(⟨0, 1/2⟩, 2/5), (⟨2, 1/2⟩, 2/5)] }

/-- A concrete collided state for witnesses. -/
def cstC : AppState :=
  { cst with collided := true }

theorem V2_add_x (a b : V2) : (a + b).x = a.x + b.x := rfl

theorem V2_add_y (a b : V2) : (a + b).y = a.y + b.y := rfl

theorem V2_sub_x (a b : V2) : (a - b).x = a.x - b.x := rfl

theorem V2_sub_y (a b : V2) : (a - b).y = a.y - b.y := rfl

theorem genRange_stream (rng : Rng) (lo hi : ℚ) :
    ((rng.genRange lo hi).2).stream = rng.stream := rfl

theorem genRange_mem {rng : Rng} (hg : GoodRng rng) {lo hi : ℚ} (hlt : lo < hi) :
    lo ≤ (rng.genRange lo hi).1 ∧ (rng.genRange lo hi).1 < hi := by
  obtain ⟨h0, h1⟩ := hg rng.idx
  constructor
  · simp only [Rng.genRange]
    nlinarith
  · simp only [Rng.genRange]
    nlinarith

/-- Unfolding lemma for `extendTube` when the queue has a newest segment. -/
theorem extendTube_eq_some {t : List Segment} {sg : Segment}
    (h : t.getLast? = some sg) (rng : Rng) :
    extendTube rng t =
      if 1 ≤ sg.1.x then (rng, t)
      else
        extendTube ((rng.genRange (1/5) (4/5)).2.genRange (1/10) (1/5)).2
          (t ++ [(⟨sg.1.x + 1/5, (rng.genRange (1/5) (4/5)).1⟩,
                  ((rng.genRange (1/5) (4/5)).2.genRange (1/10) (1/5)).1)]) := by
  rw [extendTube.eq_def]
  split
  · next sg' heq =>
    rw [h] at heq
    cases heq
    split <;> rfl
  · next hnone =>
    rw [h] at hnone
    cases hnone

/-- Unfolding lemma for `extendTube` on the empty queue. -/
theorem extendTube_eq_none (rng : Rng) :
    extendTube rng [] =
      extendTube ((rng.genRange (1/5) (4/5)).2.genRange (1/10) (1/5)).2
        [(⟨0, (rng.genRange (1/5) (4/5)).1⟩,
          ((rng.genRange (1/5) (4/5)).2.genRange (1/10) (1/5)).1)] := by
  rw [extendTube.eq_def]
  rfl

/-- The termination measure drops at every append the extend loop makes. -/
theorem extendMeasure_append {t : List Segment} {sg : Segment}
    (h : t.getLast? = some sg) (h1 : ¬1 ≤ sg.1.x) (y w : ℚ) :
    extendMeasure (t ++ [(⟨sg.1.x + 1/5, y⟩, w)]) < extendMeasure t := by
  simp only [extendMeasure, List.getLast?_concat, h]
  have e1 : (1 - (sg.1.x + 1/5)) * 5 = (1 - sg.1.x) * 5 - ((1 : ℤ) : ℚ) := by
    push_cast
    ring
  rw [e1, Int.ceil_sub_int]
  have hpos : 0 < ⌈(1 - sg.1.x) * 5⌉ := Int.ceil_pos.mpr (by nlinarith)
  omega

/-- The termination measure drops at the append made for an empty queue. -/
theorem extendMeasure_nil (y w : ℚ) :
    extendMeasure [((⟨0, y⟩ : V2), w)] < extendMeasure [] := by
  simp only [extendMeasure]
  norm_num

/-- Induction principle that follows the recursion of the extend loop, with
the generator threading made explicit. -/
theorem extendTube_rec (motive : Rng → List Segment → Prop)
    (stop : ∀ rng t sg, t.getLast? = some sg → 1 ≤ sg.1.x → motive rng t)
    (grow : ∀ rng t sg, t.getLast? = some sg → ¬1 ≤ sg.1.x →
        motive ((rng.genRange (1/5) (4/5)).2.genRange (1/10) (1/5)).2
          (t ++ [(⟨sg.1.x + 1/5, (rng.genRange (1/5) (4/5)).1⟩,
                  ((rng.genRange (1/5) (4/5)).2.genRange (1/10) (1/5)).1)]) →
        motive rng t)
    (seed : ∀ rng,
        motive ((rng.genRange (1/5) (4/5)).2.genRange (1/10) (1/5)).2
          [(⟨0, (rng.genRange (1/5) (4/5)).1⟩,
            ((rng.genRange (1/5) (4/5)).2.genRange (1/10) (1/5)).1)] →
        motive rng []) :
    ∀ rng t, motive rng t := by
  have H : ∀ n rng t, extendMeasure t ≤ n → motive rng t := by
    intro n
    induction n with
    | zero =>
      intro rng t hle
      match ht : t.getLast? with
      | some sg =>
        refine stop rng t sg ht ?_
        have hle' : (⌈(1 - sg.1.x) * 5⌉).toNat ≤ 0 := by
          simpa [extendMeasure, ht] using hle
        by_contra hx
        have h5 : (0 : ℚ) < (1 - sg.1.x) * 5 := by nlinarith [lt_of_not_le hx]
        have := Int.ceil_pos.mpr h5
        omega
      | none =>
        have htt : t = [] := List.getLast?_eq_none_iff.mp ht
        subst htt
        have h6 : extendMeasure ([] : List Segment) = 6 := rfl
        omega
    | succ n ih =>
      intro rng t hle
      match ht : t.getLast? with
      | some sg =>
        by_cases hx : 1 ≤ sg.1.x
        · exact stop rng t sg ht hx
        · refine grow rng t sg ht hx (ih _ _ ?_)
          have := extendMeasure_append ht hx (rng.genRange (1/5) (4/5)).1
            ((rng.genRange (1/5) (4/5)).2.genRange (1/10) (1/5)).1
          omega
      | none =>
        have htt : t = [] := List.getLast?_eq_none_iff.mp ht
        subst htt
        refine seed rng (ih _ _ ?_)
        have hlt := extendMeasure_nil (rng.genRange (1/5) (4/5)).1
          ((rng.genRange (1/5) (4/5)).2.genRange (1/10) (1/5)).1
        have h6 : extendMeasure ([] : List Segment) = 6 := rfl
        omega
  exact fun rng t => H (extendMeasure t) rng t le_rfl

/-- The extend loop only ever appends to the queue. -/
theorem extend_suffix : ∀ (rng : Rng) (t : List Segment),
    ∃ l, (extendTube rng t).2 = t ++ l := by
  refine extendTube_rec _ ?_ ?_ ?_
  · intro rng t sg h h1
    exact ⟨[], by rw [extendTube_eq_some h, if_pos h1, List.append_nil]⟩
  · intro rng t sg h h1 ih
    obtain ⟨l, hl⟩ := ih
    refine ⟨[(⟨sg.1.x + 1/5, (rng.genRange (1/5) (4/5)).1⟩,
              ((rng.genRange (1/5) (4/5)).2.genRange (1/10) (1/5)).1)] ++ l, ?_⟩
    rw [extendTube_eq_some h, if_neg h1, hl, List.append_assoc]
  · intro rng ih
    obtain ⟨l, hl⟩ := ih
    refine ⟨[(⟨0, (rng.genRange (1/5) (4/5)).1⟩,
              ((rng.genRange (1/5) (4/5)).2.genRange (1/10) (1/5)).1)] ++ l, ?_⟩
    rw [extendTube_eq_none, hl]
    simp

/-- After the extend loop the newest segment exists and its x is at least 1. -/
theorem extend_last : ∀ (rng : Rng) (t : List Segment),
    ∃ sg, ((extendTube rng t).2).getLast? = some sg ∧ 1 ≤ sg.1.x := by
  refine extendTube_rec _ ?_ ?_ ?_
  · intro rng t sg h h1
    exact ⟨sg, by rw [extendTube_eq_some h, if_pos h1]; exact h, h1⟩
  · intro rng t sg h h1 ih
    obtain ⟨sg', h', hge⟩ := ih
    exact ⟨sg', by rw [extendTube_eq_some h, if_neg h1]; exact h', hge⟩
  · intro rng ih
    obtain ⟨sg', h', hge⟩ := ih
    exact ⟨sg', by rw [extendTube_eq_none]; exact h', hge⟩

/-- The extend loop does not disturb the generator's stream. -/
theorem extend_stream : ∀ (rng : Rng) (t : List Segment),
    ((extendTube rng t).1).stream = rng.stream := by
  refine extendTube_rec _ ?_ ?_ ?_
  · intro rng t sg h h1
    rw [extendTube_eq_some h, if_pos h1]
  · intro rng t sg h h1 ih
    rw [extendTube_eq_some h, if_neg h1]
    exact ih
  · intro rng ih
    rw [extendTube_eq_none]
    exact ih

/-- The extend loop preserves strict x ordering: every appended segment sits
1/5 to the right of the previous newest one. -/
theorem extend_sorted : ∀ (rng : Rng) (t : List Segment),
    TubeSorted t → TubeSorted (extendTube rng t).2 := by
  refine extendTube_rec (fun rng t => TubeSorted t → TubeSorted (extendTube rng t).2) ?_ ?_ ?_
  · intro rng t sg h h1 hc
    rw [extendTube_eq_some h, if_pos h1]
    exact hc
  · intro rng t sg h h1 ih hc
    rw [extendTube_eq_some h, if_neg h1]
    apply ih
    refine List.chain'_append.2 ⟨hc, List.chain'_singleton _, ?_⟩
    intro x hx y hy
    rw [h, Option.mem_some_iff] at hx
    rw [List.head?_cons, Option.mem_some_iff] at hy
    subst hx
    subst hy
    show sg.1.x < sg.1.x + 1/5
    linarith
  · intro rng ih hc
    rw [extendTube_eq_none]
    exact ih (List.chain'_singleton _)

/-- Every segment the extend loop appends has its walls inside the vertical
window, provided the generator produces unit draws. -/
theorem extend_in_bounds : ∀ (rng : Rng) (t : List Segment), GoodRng rng →
    (∀ sg ∈ t, SegInBounds sg) → ∀ sg ∈ (extendTube rng t).2, SegInBounds sg := by
  refine extendTube_rec (fun rng t => GoodRng rng → (∀ sg ∈ t, SegInBounds sg) →
    ∀ sg ∈ (extendTube rng t).2, SegInBounds sg) ?_ ?_ ?_
  · intro rng t sg h h1 hg hb
    rw [extendTube_eq_some h, if_pos h1]
    exact hb
  · intro rng t sg h h1 ih hg hb
    rw [extendTube_eq_some h, if_neg h1]
    apply ih hg
    intro sg' hsg'
    rcases List.mem_append.1 hsg' with hmem | hmem
    · exact hb sg' hmem
    · rw [List.mem_singleton] at hmem
      subst hmem
      obtain ⟨hm0, hm1⟩ := genRange_mem hg (by norm_num : (1:ℚ)/5 < 4/5)
      obtain ⟨hw0, hw1⟩ := @genRange_mem ((rng.genRange (1/5) (4/5)).2) hg (1/10) (1/5)
        (by norm_num)
      exact ⟨by simp only; linarith, by simp only; linarith, by simp only; linarith⟩
  · intro rng ih hg hb
    rw [extendTube_eq_none]
    apply ih hg
    intro sg' hsg'
    rw [List.mem_singleton] at hsg'
    subst hsg'
    obtain ⟨hm0, hm1⟩ := genRange_mem hg (by norm_num : (1:ℚ)/5 < 4/5)
    obtain ⟨hw0, hw1⟩ := @genRange_mem ((rng.genRange (1/5) (4/5)).2) hg (1/10) (1/5)
      (by norm_num)
    exact ⟨by simp only; linarith, by simp only; linarith, by simp only; linarith⟩

/-- Eviction removes a prefix: the result is a drop of the input. -/
theorem evict_suffix : ∀ t : List Segment, ∃ k, evictTube t = t.drop k := by
  intro t
  induction t using evictTube.induct with
  | case1 a b rest hb ih =>
    obtain ⟨k, hk⟩ := ih
    exact ⟨k + 1, by rw [evictTube, if_pos hb, hk]; rfl⟩
  | case2 a b rest hb =>
    exact ⟨0, by rw [evictTube, if_neg hb]; rfl⟩
  | case3 t hshape =>
    refine ⟨0, ?_⟩
    match t, hshape with
    | [], _ => rfl
    | [a], _ => rfl
    | a :: b :: rest, hshape => exact absurd rfl (hshape a b rest)

/-- Eviction keeps the queue nonempty. -/
theorem evict_ne_nil : ∀ t : List Segment, t ≠ [] → evictTube t ≠ [] := by
  intro t
  induction t using evictTube.induct with
  | case1 a b rest hb ih =>
    intro _
    rw [evictTube, if_pos hb]
    exact ih (List.cons_ne_nil _ _)
  | case2 a b rest hb =>
    intro _
    rw [evictTube, if_neg hb]
    exact List.cons_ne_nil _ _
  | case3 t hshape =>
    intro ht
    match t, hshape, ht with
    | [a], _, _ => exact List.cons_ne_nil _ _
    | a :: b :: rest, hshape, _ => exact absurd rfl (hshape a b rest)

/-- After eviction a queue of length at least 2 either still has length at
least 2 or has shrunk to a single segment whose x is negative. -/
theorem evict_len2 : ∀ t : List Segment, 2 ≤ t.length →
    2 ≤ (evictTube t).length ∨ ∃ c, evictTube t = [c] ∧ c.1.x < 0 := by
  intro t
  induction t using evictTube.induct with
  | case1 a b rest hb ih =>
    intro _
    rw [evictTube, if_pos hb]
    match rest with
    | [] =>
      right
      exact ⟨b, rfl, hb⟩
    | c :: rest' =>
      exact ih (by simp)
  | case2 a b rest hb =>
    intro _
    rw [evictTube, if_neg hb]
    left
    simp
  | case3 t hshape =>
    intro hlen
    match t, hshape, hlen with
    | a :: b :: rest, hshape, _ => exact absurd rfl (hshape a b rest)

/-- Shifting preserves the queue length. -/
theorem shift_length (t : List Segment) : (shiftTube t).length = t.length := by
  simp [shiftTube]

/-- Shifting preserves strict x ordering. -/
theorem shift_sorted {t : List Segment} (hc : TubeSorted t) :
    TubeSorted (shiftTube t) := by
  rw [TubeSorted, shiftTube, List.chain'_map]
  refine hc.imp ?_
  intro a b hab
  simp only at hab ⊢
  linarith

/-- Shifting moves only x, so wall bounds are untouched. -/
theorem shift_in_bounds {t : List Segment} (hb : ∀ sg ∈ t, SegInBounds sg) :
    ∀ sg ∈ shiftTube t, SegInBounds sg := by
  intro sg hsg
  rw [shiftTube, List.mem_map] at hsg
  obtain ⟨sg', hmem, rfl⟩ := hsg
  exact hb sg' hmem

/-- `move_tube` does not change the vehicle position. -/
theorem move_tube_pos (s : AppState) : (move_tube s).heli_pos = s.heli_pos := rfl

/-- `move_tube` does not change the vehicle velocity. -/
theorem move_tube_vel (s : AppState) : (move_tube s).heli_vel = s.heli_vel := rfl

/-- `move_tube` does not change the paused flag. -/
theorem move_tube_paused (s : AppState) : (move_tube s).paused = s.paused := rfl

/-- `move_tube` does not change the collided flag. -/
theorem move_tube_collided (s : AppState) : (move_tube s).collided = s.collided := rfl

/-- `move_tube` advances the generator cursor but not its stream. -/
theorem move_tube_stream (s : AppState) :
    ((move_tube s).rng).stream = s.rng.stream :=
  extend_stream s.rng (evictTube (shiftTube s.tube))

/-- The tube after `move_tube`, written through the three phases. -/
theorem move_tube_tube (s : AppState) :
    (move_tube s).tube = (extendTube s.rng (evictTube (shiftTube s.tube))).2 := rfl

/-- If the newest segment exists, `lastX` reads its x. -/
theorem lastX_eq {t : List Segment} {sg : Segment} (h : t.getLast? = some sg) :
    lastX t = sg.1.x := by
  rw [lastX, h]

/-- After any `move_tube` the newest segment's x is at least 1. -/
theorem move_tube_lastX (s : AppState) : 1 ≤ lastX (move_tube s).tube := by
  obtain ⟨sg, hlast, hge⟩ := extend_last s.rng (evictTube (shiftTube s.tube))
  rw [move_tube_tube, lastX_eq hlast]
  exact hge

/-- One `move_tube` preserves the tunnel invariant: length at least 2,
strictly increasing x, newest x at least 1. -/
theorem move_tube_inv {s : AppState} (hl : 2 ≤ s.tube.length)
    (hc : TubeSorted s.tube) :
    2 ≤ (move_tube s).tube.length ∧ TubeSorted (move_tube s).tube ∧
      1 ≤ lastX (move_tube s).tube := by
  have hl1 : 2 ≤ (shiftTube s.tube).length := by rw [shift_length]; exact hl
  have hc1 : TubeSorted (shiftTube s.tube) := shift_sorted hc
  obtain ⟨k, hk⟩ := evict_suffix (shiftTube s.tube)
  have hc2 : TubeSorted (evictTube (shiftTube s.tube)) := by
    rw [hk]
    exact hc1.drop k
  obtain ⟨l, hl3⟩ := extend_suffix s.rng (evictTube (shiftTube s.tube))
  obtain ⟨sgl, hlast, hge⟩ := extend_last s.rng (evictTube (shiftTube s.tube))
  refine ⟨?_, ?_, move_tube_lastX s⟩
  · rcases evict_len2 (shiftTube s.tube) hl1 with h2 | ⟨c, hc', hcx⟩
    · rw [move_tube_tube, hl3, List.length_append]
      omega
    · rcases l with _ | ⟨a, l'⟩
      · exfalso
        rw [List.append_nil] at hl3
        rw [hl3, hc'] at hlast
        have hcs : c = sgl := by simpa using hlast
        rw [hcs] at hcx
        linarith
      · rw [move_tube_tube, hl3, hc']
        simp
  · rw [move_tube_tube]
    exact extend_sorted _ _ hc2

/-- One `move_tube` keeps every segment's walls inside the vertical window,
given a unit-draw generator. -/
theorem move_tube_in_bounds {s : AppState} (hg : GoodRng s.rng)
    (hb : ∀ sg ∈ s.tube, SegInBounds sg) :
    ∀ sg ∈ (move_tube s).tube, SegInBounds sg := by
  rw [move_tube_tube]
  apply extend_in_bounds s.rng _ hg
  intro sg hsg
  obtain ⟨k, hk⟩ := evict_suffix (shiftTube s.tube)
  rw [hk] at hsg
  exact shift_in_bounds hb sg (List.drop_subset k _ hsg)

/-- A frame tick either leaves the tunnel alone (paused or collided) or
runs exactly one `move_tube` on it. -/
theorem frame_tick_tube (i : Bool) (s : AppState) :
    (frame_tick i s).tube = s.tube ∨ (frame_tick i s).tube = (move_tube s).tube := by
  obtain ⟨r, p, c, hp, hv, t⟩ := s
  cases i <;> cases p <;> cases c <;> simp [frame_tick, move_tube]

/-- A frame tick never changes the generator's stream. -/
theorem frame_tick_stream (i : Bool) (s : AppState) :
    ((frame_tick i s).rng).stream = s.rng.stream := by
  obtain ⟨r, p, c, hp, hv, t⟩ := s
  cases i <;> cases p <;> cases c <;> simp [frame_tick, move_tube, extend_stream]

/-- A frame tick never clears the collided flag. -/
theorem frame_tick_collided (i : Bool) {s : AppState} (hc : s.collided = true) :
    (frame_tick i s).collided = true := by
  obtain ⟨r, p, c, hp, hv, t⟩ := s
  simp only at hc
  subst hc
  cases i <;> cases p <;> simp [frame_tick]

/-- The two seed segments are already 2 long and strictly ordered. -/
theorem seed_len_sorted (rng : Rng) :
    2 ≤ (seedState rng).tube.length ∧ TubeSorted (seedState rng).tube := by
  constructor
  · simp [seedState]
  · simp only [TubeSorted, seedState, List.chain'_cons, List.chain'_singleton, and_true]
    norm_num

/-- The two seed segments have their walls at 0.1 and 0.9, inside the
window. -/
theorem seed_in_bounds (rng : Rng) :
    ∀ sg ∈ (seedState rng).tube, SegInBounds sg := by
  intro sg hsg
  simp only [seedState, List.mem_cons, List.mem_singleton, List.not_mem_nil,
    or_false] at hsg
  rcases hsg with rfl | rfl <;>
    exact ⟨by norm_num, by norm_num, by norm_num⟩

/-- Unit-draw generators transfer along stream equality. -/
theorem GoodRng.of_stream_eq {r' r : Rng} (e : r'.stream = r.stream)
    (h : GoodRng r') : GoodRng r :=
  fun n => e ▸ h n

/-- Every reachable state keeps each segment's walls inside the window,
provided the generator stream only produces unit draws. -/
theorem reachable_in_bounds {s : AppState} (h : Reachable s) (hg : GoodRng s.rng) :
    ∀ sg ∈ s.tube, SegInBounds sg := by
  induction h with
  | init rng =>
    have hg' : GoodRng rng :=
      GoodRng.of_stream_eq (move_tube_stream (seedState rng)) hg
    exact @move_tube_in_bounds (seedState rng) hg' (seed_in_bounds rng)
  | tick i hr ih =>
    next s' =>
    have hg' : GoodRng s'.rng :=
      GoodRng.of_stream_eq (frame_tick_stream i s') hg
    rcases frame_tick_tube i s' with he | he
    · rw [he]
      exact ih hg'
    · rw [he]
      exact move_tube_in_bounds hg' (ih hg')
  | pauseKey hr ih =>
    exact ih hg
  | restartKey hr ih =>
    next s' =>
    have hg' : GoodRng s'.rng :=
      GoodRng.of_stream_eq (move_tube_stream (seedState s'.rng)) hg
    exact @move_tube_in_bounds (seedState s'.rng) hg' (seed_in_bounds s'.rng)

/-- C3: for every state reachable from initialization by any number of ticks
and restarts, the tunnel queue has at least 2 segments, its x-coordinates
strictly increase from oldest to newest, and the newest segment's x is at
least 1. -/
theorem c3_tunnel_queue_invariant (s : AppState) (h : Reachable s) :
    2 ≤ s.tube.length ∧ TubeSorted s.tube ∧ 1 ≤ lastX s.tube := by
  induction h with
  | init rng =>
    exact move_tube_inv (seed_len_sorted rng).1 (seed_len_sorted rng).2
  | tick i hr ih =>
    next s' =>
    rcases frame_tick_tube i s' with he | he
    · rw [he]
      exact ih
    · rw [he]
      exact move_tube_inv ih.1 ih.2.1
  | pauseKey hr ih =>
    exact ih
  | restartKey hr ih =>
    next s' =>
    exact move_tube_inv (seed_len_sorted s'.rng).1 (seed_len_sorted s'.rng).2

/-- C3 witness: the freshly initialized state with the all-zeros stream is
reachable and satisfies the invariant. -/
theorem c3_witness :
    Reachable (init_app_state rng0) ∧
    2 ≤ (init_app_state rng0).tube.length ∧ TubeSorted (init_app_state rng0).tube ∧
    1 ≤ lastX (init_app_state rng0).tube :=
  ⟨Reachable.init rng0, c3_tunnel_queue_invariant _ (Reachable.init rng0)⟩

/-- C10: for every reachable state (under a unit-draw generator), every
tunnel segment keeps its ground wall at least 0 and its ceiling wall at most
1, so the ground and ceiling polylines never leave the vertical window. -/
theorem c10_walls_in_window (s : AppState) (h : Reachable s) (hg : GoodRng s.rng) :
    (∀ sg ∈ s.tube, 0 ≤ sg.1.y - sg.2 ∧ sg.1.y + sg.2 ≤ 1) ∧
    (∀ v ∈ ground s, 0 ≤ v.y ∧ v.y ≤ 1) ∧
    (∀ v ∈ ceiling s, 0 ≤ v.y ∧ v.y ≤ 1) := by
  have hb := reachable_in_bounds h hg
  refine ⟨fun sg hsg => ⟨(hb sg hsg).2.1, (hb sg hsg).2.2⟩, ?_, ?_⟩
  · intro v hv
    rw [ground, List.mem_map] at hv
    obtain ⟨sg, hm, rfl⟩ := hv
    obtain ⟨hw, hlo, hhi⟩ := hb sg hm
    rw [V2_add_y]
    constructor <;> simp only <;> linarith
  · intro v hv
    rw [ceiling, List.mem_map] at hv
    obtain ⟨sg, hm, rfl⟩ := hv
    obtain ⟨hw, hlo, hhi⟩ := hb sg hm
    rw [V2_add_y]
    constructor <;> simp only <;> linarith

/-- C10 witness: the freshly initialized state with the all-zeros stream. -/
theorem c10_witness :
    Reachable (init_app_state rng0) ∧ GoodRng (init_app_state rng0).rng ∧
    ∀ sg ∈ (init_app_state rng0).tube, 0 ≤ sg.1.y - sg.2 ∧ sg.1.y + sg.2 ≤ 1 := by
  have hg : GoodRng (init_app_state rng0).rng := by
    intro n
    rw [show (init_app_state rng0).rng.stream = rng0.stream from
      move_tube_stream (seedState rng0)]
    exact ⟨le_refl 0, by norm_num [rng0]⟩
  exact ⟨Reachable.init rng0, hg,
    (c10_walls_in_window _ (Reachable.init rng0) hg).1⟩

/-- Unfolding lemma for `specExtendTube` when the queue has a newest
segment. -/
theorem specExtendTube_eq_some {t : List Segment} {sg : Segment}
    (h : t.getLast? = some sg) (rng : Rng) :
    specExtendTube rng t =
      if sg.1.x < 1 then
        specExtendTube ((rng.genRange (1/5) (4/5)).2.genRange (1/10) (1/5)).2
          (t ++ [(⟨sg.1.x + 1/5, (rng.genRange (1/5) (4/5)).1⟩,
                  ((rng.genRange (1/5) (4/5)).2.genRange (1/10) (1/5)).1)])
      else (rng, t) := by
  rw [specExtendTube.eq_def]
  split
  · next sg' heq =>
    rw [h] at heq
    cases heq
    split <;> rfl
  · next hnone =>
    rw [h] at hnone
    cases hnone

/-- The two eviction loops agree everywhere. -/
theorem specEvict_eq : ∀ t : List Segment, specEvictTube t = evictTube t := by
  intro t
  induction t using evictTube.induct with
  | case1 a b rest hb ih =>
    rw [specEvictTube, evictTube, if_pos hb, if_pos hb, ih]
  | case2 a b rest hb =>
    rw [specEvictTube, evictTube, if_neg hb, if_neg hb]
  | case3 t hshape =>
    match t, hshape with
    | [], _ => rfl
    | [a], _ => rfl
    | a :: b :: rest, hshape => exact absurd rfl (hshape a b rest)

/-- The two extension loops agree on every nonempty queue. -/
theorem specExtend_eq : ∀ (rng : Rng) (t : List Segment), t ≠ [] →
    specExtendTube rng t = extendTube rng t := by
  refine extendTube_rec
    (fun rng t => t ≠ [] → specExtendTube rng t = extendTube rng t) ?_ ?_ ?_
  · intro rng t sg h h1 _
    rw [specExtendTube_eq_some h, if_neg (not_lt.2 h1), extendTube_eq_some h,
      if_pos h1]
  · intro rng t sg h h1 ih _
    rw [specExtendTube_eq_some h, if_pos (lt_of_not_le h1), extendTube_eq_some h,
      if_neg h1]
    exact ih (by simp)
  · intro rng ih h
    exact absurd rfl h

/-- C2: one tunnel tick is exactly the spec's three steps in order — shift
every x down by 0.001, evict while the second-oldest x is negative, then
extend (midpoint drawn before half-width) while the newest x is below 1. -/
theorem c2_move_tube_is_spec_tick (s : AppState) (h : s.tube ≠ []) :
    move_tube s = specTick s := by
  have hsh : shiftTube s.tube ≠ [] := by
    intro he
    exact h (by simpa [shiftTube] using he)
  have hnn : evictTube (shiftTube s.tube) ≠ [] := evict_ne_nil _ hsh
  simp only [move_tube, specTick]
  rw [show specShiftTube s.tube = shiftTube s.tube from rfl, specEvict_eq,
    specExtend_eq _ _ hnn]

/-- C2 witness: a concrete running state with a nonempty tunnel. -/
theorem c2_witness : cst.tube ≠ [] ∧ move_tube cst = specTick cst :=
  ⟨by simp [cst], c2_move_tube_is_spec_tick cst (by simp [cst])⟩

/-- C7: restart replaces the whole state — vehicle back to (0.1, 0.5) at
rest, collided cleared, tunnel rebuilt from the two seed segments and ticked
until the newest x reaches 1, and the generator carried forward (same
stream) instead of being re-seeded. -/
theorem c7_restart_resets (s : AppState) :
    handle_restart s = init_app_state s.rng ∧
    (handle_restart s).heli_pos = ⟨1/10, 1/2⟩ ∧
    (handle_restart s).heli_vel = ⟨0, 0⟩ ∧
    (handle_restart s).collided = false ∧
    (∀ n, untilSteady (n + 1) (seedState s.rng) = handle_restart s) ∧
    ((handle_restart s).rng).stream = s.rng.stream := by
  refine ⟨rfl, rfl, rfl, rfl, ?_, move_tube_stream (seedState s.rng)⟩
  intro n
  have hseed : ¬1 ≤ lastX (seedState s.rng).tube := by
    rw [show lastX (seedState s.rng).tube = 2/5 from rfl]
    norm_num
  cases n with
  | zero =>
    rw [untilSteady, if_neg hseed]
    rfl
  | succ m =>
    rw [untilSteady, if_neg hseed, untilSteady, if_pos (move_tube_lastX _)]
    rfl

/-- C4 counterexample: in a running state at rest with thrust held, the
source tick leaves the position where it was (position moves before the
velocity updates), while the claimed order would already raise it by
0.0001, so the claimed tick differs from the source tick. -/
theorem c4_counterexample :
    cst.collided = false ∧ cst.paused = false ∧
    frame_tick true cst ≠ claimTick true cst := by
  refine ⟨rfl, rfl, fun he => ?_⟩
  have h1 : (frame_tick true cst).heli_pos.y = 1/2 := by
    simp [frame_tick, cst, move_tube_pos, V2_add_y]
  have h2 : (claimTick true cst).heli_pos.y = 1/2 + 1/10000 := by
    simp [claimTick, cst, move_tube_pos, V2_add_y]
  rw [he, h2] at h1
  norm_num at h1

/-- C4 as amended: in every running (not paused, not collided) tick the
position moves by the current velocity first, then the vertical velocity
gains or loses 0.0001, then the tunnel ticks and the collision test sets
the flag. -/
theorem c4_tick_order (i : Bool) (s : AppState) (hc : s.collided = false)
    (hp : s.paused = false) : frame_tick i s = amendTick i s := by
  obtain ⟨r, p, c, hpo, hv, t⟩ := s
  simp only at hc hp
  subst hc
  subst hp
  cases i <;> simp [frame_tick, amendTick]

/-- C4 witness: the amended order holds at the concrete running state. -/
theorem c4_witness :
    cst.collided = false ∧ cst.paused = false ∧
    frame_tick true cst = amendTick true cst :=
  ⟨rfl, rfl, c4_tick_order true cst rfl rfl⟩

/-- C5: `normalized` divides both components by the squared magnitude, and
for a non-zero vector the dot product of the normalized vector with itself
is exactly the reciprocal of the squared magnitude. -/
theorem c5_normalized_squared_norm (v : V2) :
    V2.normalized v = ⟨v.x / (v.x ^ 2 + v.y ^ 2), v.y / (v.x ^ 2 + v.y ^ 2)⟩ ∧
    (v ≠ ⟨0, 0⟩ →
      V2.dot (V2.normalized v) (V2.normalized v) = 1 / (v.x ^ 2 + v.y ^ 2)) := by
  obtain ⟨vx, vy⟩ := v
  have e : vx * vx + vy * vy = vx ^ 2 + vy ^ 2 := by ring
  constructor
  · rw [V2.normalized]
    simp only
    rw [e]
  · intro hne
    have hxy : vx ≠ 0 ∨ vy ≠ 0 := by
      by_contra hcon
      push_neg at hcon
      exact hne (by rw [hcon.1, hcon.2])
    have hn : vx ^ 2 + vy ^ 2 ≠ 0 := by
      rcases hxy with hx | hy
      · exact ne_of_gt (add_pos_of_pos_of_nonneg (pow_two_pos_of_ne_zero hx)
          (sq_nonneg vy))
      · exact ne_of_gt (add_pos_of_nonneg_of_pos (sq_nonneg vx)
          (pow_two_pos_of_ne_zero hy))
    have hn' : vx * vx + vy * vy ≠ 0 := by
      rw [e]
      exact hn
    rw [V2.normalized, V2.dot]
    simp only
    field_simp
    ring

/-- C5 witness: at (3, 4) the self dot product of the normalized vector is
exactly 1/25. -/
theorem c5_witness :
    (V2.mk 3 4 ≠ V2.mk 0 0) ∧
    V2.dot (V2.normalized ⟨3, 4⟩) (V2.normalized ⟨3, 4⟩) =
      1 / ((3 : ℚ) ^ 2 + 4 ^ 2) :=
  ⟨by norm_num [V2.mk.injEq],
   (c5_normalized_squared_norm ⟨3, 4⟩).2 (by norm_num [V2.mk.injEq])⟩

theorem Fl_mul_nan_left (a : Fl) : Fl.mul Fl.nan a = Fl.nan := by
  cases a <;> rfl

theorem Fl_mul_nan_right (a : Fl) : Fl.mul a Fl.nan = Fl.nan := by
  cases a <;> rfl

theorem Fl_add_nan_left (a : Fl) : Fl.add Fl.nan a = Fl.nan := by
  cases a <;> rfl

theorem Fl_add_nan_right (a : Fl) : Fl.add a Fl.nan = Fl.nan := by
  cases a <;> rfl

theorem Fl_div_nan_right (a : Fl) : Fl.div a Fl.nan = Fl.nan := by
  cases a <;> rfl

theorem Fl_lt_nan_left (a : Fl) : Fl.lt Fl.nan a = false := by
  cases a <;> rfl

/-- C6: a zero-length segment drives `segment_point_distance` to NaN through
the squared-norm normalization of the zero vector; the comparison of that
NaN against the radius is false, so neither the ground nor the ceiling hit
condition can fire on such a segment — degenerate input suppresses the
collision instead of raising an error. -/
theorem c6_degenerate_segment_suppressed (sp point : FV2) :
    fl_segment_point_distance (sp, sp) point = Fl.nan ∧
    Fl.lt (fl_segment_point_distance (sp, sp) point) (Fl.fin HELI_RADIUS) = false ∧
    fl_hit_ground_cond sp sp point = false ∧
    fl_hit_ceiling_cond sp sp point = false := by
  have hd : fl_segment_point_distance (sp, sp) point = Fl.nan := by
    obtain ⟨sx, sy⟩ := sp
    rw [fl_segment_point_distance]
    simp only [FV2.sub, FV2.turn_left, FV2.normalized, FV2.dot]
    cases sx <;> cases sy <;>
      simp [Fl.sub, Fl.neg, Fl.mul, Fl.add, Fl.div, Fl_mul_nan_left,
        Fl_mul_nan_right, Fl_add_nan_left, Fl_add_nan_right, Fl_div_nan_right]
  refine ⟨hd, ?_, ?_, ?_⟩
  · rw [hd]
    rfl
  · rw [fl_hit_ground_cond, hd]
    simp [Fl_lt_nan_left]
  · rw [fl_hit_ceiling_cond, hd]
    simp [Fl_lt_nan_left]

/-- Each input list drives the tick relation to a unique final state. -/
theorem steps_unique : ∀ {s : AppState} {ins : List Bool} {s1 : AppState},
    Steps s ins s1 → ∀ {s2 : AppState}, Steps s ins s2 → s1 = s2 := by
  intro s ins s1 h1
  induction h1 with
  | nil s =>
    intro s2 h2
    cases h2
    rfl
  | cons i h ih =>
    intro s2 h2
    cases h2 with
    | cons _ h' => exact ih h'

/-- C8: the simulation is deterministic — from the initial state of a given
seed, any two runs of the same first n per-tick inputs reach the same
tunnel, position and velocity. -/
theorem c8_deterministic_replay (rng : Rng) (inputs : List Bool) (n : ℕ)
    (s1 s2 : AppState)
    (h1 : Steps (init_app_state rng) (inputs.take n) s1)
    (h2 : Steps (init_app_state rng) (inputs.take n) s2) :
    s1.tube = s2.tube ∧ s1.heli_pos = s2.heli_pos ∧ s1.heli_vel = s2.heli_vel := by
  obtain rfl : s1 = s2 := steps_unique h1 h2
  exact ⟨rfl, rfl, rfl⟩

/-- C8 witness: two zero-length runs from the all-zeros seed agree. -/
theorem c8_witness :
    Steps (init_app_state rng0) (List.take 0 []) (init_app_state rng0) ∧
    (init_app_state rng0).tube = (init_app_state rng0).tube :=
  ⟨Steps.nil _,
   (c8_deterministic_replay rng0 [] 0 _ _ (Steps.nil _) (Steps.nil _)).1⟩

/-- C9: the pause toggle flips Running and Paused when not collided; while
collided the state machine state stays Collided under the toggle and under
any frame tick (terminal until restart). -/
theorem c9_pause_toggle (s : AppState) :
    (s.collided = false →
      (mode s = Mode.Running → mode (toggle_pause s) = Mode.Paused) ∧
      (mode s = Mode.Paused → mode (toggle_pause s) = Mode.Running)) ∧
    (s.collided = true →
      mode s = Mode.Collided ∧ mode (toggle_pause s) = Mode.Collided ∧
      ∀ i, mode (frame_tick i s) = Mode.Collided) := by
  obtain ⟨r, p, c, hpo, hv, t⟩ := s
  constructor
  · intro hc
    simp only at hc
    subst hc
    cases p <;> simp [mode, toggle_pause]
  · intro hc
    simp only at hc
    subst hc
    refine ⟨rfl, rfl, ?_⟩
    intro i
    cases i <;> cases p <;> simp [mode, frame_tick]

/-- C9 witness: the toggle pauses a concrete running state and leaves a
concrete collided state in Collided. -/
theorem c9_witness :
    mode (toggle_pause cst) = Mode.Paused ∧
    mode (toggle_pause cstC) = Mode.Collided :=
  ⟨((c9_pause_toggle cst).1 rfl).1 rfl, ((c9_pause_toggle cstC).2 rfl).2.1⟩

/-- The source's local float `max` agrees with the order-theoretic one. -/
theorem fmax_eq (x y : ℚ) : fmax x y = max x y := by
  rw [fmax]
  split_ifs with h
  · exact (max_eq_left h.le).symm
  · exact (max_eq_right (not_lt.1 h)).symm

/-- The source's local float `min` agrees with the order-theoretic one. -/
theorem fmin_eq (x y : ℚ) : fmin x y = min x y := by
  rw [fmin]
  split_ifs with h
  · exact (min_eq_left h.le).symm
  · exact (min_eq_right (not_lt.1 h)).symm

/-- `any` over zipped consecutive pairs is an existential over an index. -/
theorem any_consecutive_pairs {α : Type} (l : List α) (f : α × α → Bool) :
    (l.zip (l.drop 1)).any f = true ↔
      ∃ i, ∃ h : i + 1 < l.length,
        f (l.get ⟨i, Nat.lt_of_succ_lt h⟩, l.get ⟨i + 1, h⟩) = true := by
  rw [List.any_eq_true]
  constructor
  · rintro ⟨x, hx, hfx⟩
    rw [List.mem_iff_getElem] at hx
    obtain ⟨n, hn, hxe⟩ := hx
    have hn' : n + 1 < l.length := by
      rw [List.length_zip, List.length_drop] at hn
      omega
    refine ⟨n, hn', ?_⟩
    rw [← hxe] at hfx
    rw [List.getElem_zip] at hfx
    simp only [List.drop_one, List.getElem_tail] at hfx
    simpa [List.get_eq_getElem] using hfx
  · rintro ⟨i, h, hf⟩
    refine ⟨(l.get ⟨i, Nat.lt_of_succ_lt h⟩, l.get ⟨i + 1, h⟩), ?_, hf⟩
    rw [List.mem_iff_getElem]
    refine ⟨i, ?_, ?_⟩
    · rw [List.length_zip, List.length_drop]
      omega
    · rw [List.getElem_zip]
      simp [List.drop_one, List.getElem_tail, List.get_eq_getElem]

/-- The ground polyline is the centers lowered by the half-widths. -/
theorem ground_eq (s : AppState) :
    ground s = s.tube.map fun sg => sg.1 - V2.mk 0 sg.2 := by
  rw [ground]
  apply List.map_congr_left
  intro sg _
  obtain ⟨⟨cx, cy⟩, w⟩ := sg
  show V2.mk (cx + 0) (cy + -w) = V2.mk (cx - 0) (cy - w)
  rw [V2.mk.injEq]
  constructor <;> ring

/-- The ceiling polyline is the centers raised by the half-widths. -/
theorem ceiling_eq (s : AppState) :
    ceiling s = s.tube.map fun sg => sg.1 + V2.mk 0 sg.2 := rfl

/-- C1: the collision test fires exactly when some consecutive ground pair
passes the strict x window, the max-y pre-filter and the signed-distance
test, or some consecutive ceiling pair passes the strict x window, the
min-y pre-filter and the distance test with start and end swapped; the
polylines are the tunnel centers shifted by the half-widths. -/
theorem c1_is_collided_characterization (s : AppState) :
    ground s = (s.tube.map fun sg => sg.1 - V2.mk 0 sg.2) ∧
    ceiling s = (s.tube.map fun sg => sg.1 + V2.mk 0 sg.2) ∧
    (is_collided s = true ↔
      ((∃ i, ∃ h : i + 1 < (ground s).length,
          ((ground s).get ⟨i, Nat.lt_of_succ_lt h⟩).x < s.heli_pos.x ∧
          s.heli_pos.x < ((ground s).get ⟨i + 1, h⟩).x ∧
          s.heli_pos.y - 3/100 <
            max ((ground s).get ⟨i, Nat.lt_of_succ_lt h⟩).y
              ((ground s).get ⟨i + 1, h⟩).y ∧
          V2.dot (V2.normalized (V2.turn_left
              ((ground s).get ⟨i + 1, h⟩ - (ground s).get ⟨i, Nat.lt_of_succ_lt h⟩)))
            (s.heli_pos - (ground s).get ⟨i, Nat.lt_of_succ_lt h⟩) < 3/100) ∨
       (∃ i, ∃ h : i + 1 < (ceiling s).length,
          ((ceiling s).get ⟨i, Nat.lt_of_succ_lt h⟩).x < s.heli_pos.x ∧
          s.heli_pos.x < ((ceiling s).get ⟨i + 1, h⟩).x ∧
          min ((ceiling s).get ⟨i, Nat.lt_of_succ_lt h⟩).y
              ((ceiling s).get ⟨i + 1, h⟩).y < s.heli_pos.y + 3/100 ∧
          V2.dot (V2.normalized (V2.turn_left
              ((ceiling s).get ⟨i, Nat.lt_of_succ_lt h⟩ - (ceiling s).get ⟨i + 1, h⟩)))
            (s.heli_pos - (ceiling s).get ⟨i + 1, h⟩) < 3/100))) := by
  refine ⟨ground_eq s, ceiling_eq s, ?_⟩
  rw [is_collided]
  simp only [Bool.or_eq_true]
  rw [any_consecutive_pairs, any_consecutive_pairs]
  apply or_congr <;>
    exact exists_congr fun i => exists_congr fun h => by
      simp only [between, Bool.and_eq_true, decide_eq_true_eq, and_assoc,
        segment_point_distance, fmax_eq, fmin_eq, gt_iff_lt, HELI_RADIUS]

end RustyNavigator
